import Mathlib

/-!
Verification of the tclperformance repository: a Tcl extension exposing one
command, `xor`, that applies a repeating-key XOR transform to a byte array.

The embedding follows `src/performance.c` (function `Tcl_xor_cmd`).  Byte
sequences are modelled as `List Nat`; since the C bytes are `unsigned char`
(values below 256) and XOR of two naturals below 256 stays below 256, no
explicit truncation appears in the source loop and none is needed here.
An out-of-bounds array read (which the C standard leaves undefined) is
modelled by the loop returning `none`.
-/

namespace TclPerformance

/-- One step result of the whole command, mirroring the possible outcomes of
`Tcl_xor_cmd`: a successful byte-array result, an error message left in the
interpreter, or undefined behaviour (an out-of-bounds read in the loop). -/
inductive CmdResult where
  | ok (bytes : List Nat)
  | err (msg : String)
  | undef
deriving DecidableEq, Repr

/-- The XOR loop of `Tcl_xor_cmd` (src/performance.c lines 46-51):

    int si = 0;
    for (ti = 0; ti < textLen; ti++) \x7b
        result[ti] = text[ti] ^ salt[si++];
        if (si >= saltLen) si = 0;
    \x7d

`si` is the running key index; reading `salt[si]` out of bounds yields
`none` (undefined behaviour in the C source). -/
def xorLoopGo (salt : List Nat) : List Nat → Nat → Option (List Nat)
  | [], _ => some []
  | t :: ts, si =>
    match salt.get? si with
    | none => none
    | some s =>
      let si2 := if si + 1 ≥ salt.length then 0 else si + 1
      match xorLoopGo salt ts si2 with
      | none => none
      | some rest => some ((t ^^^ s) :: rest)

/-- The core transform: run the XOR loop with the key index starting at 0,
exactly as `Tcl_xor_cmd` does after extracting the two byte arrays. -/
def transform (text salt : List Nat) : Option (List Nat) :=
  xorLoopGo salt text 0

/-- The full command `Tcl_xor_cmd`: `objv` is the argument vector including
the command word itself (so `objc = objv.length`).  With any argument count
other than 3 it leaves the fixed usage message; otherwise it runs the
transform on `objv[1]` (data) and `objv[2]` (salt). -/
def Tcl_xor_cmd (objv : List (List Nat)) : CmdResult :=
  match objv with
  | [_, text, salt] =>
    match transform text salt with
    | some r => CmdResult.ok r
    | none => CmdResult.undef
  | _ => CmdResult.err "Invalid command count, use: xor <string> <salt>"

/-- Modelled from the spec (reference definition for the refinement claim
C9 only): `result[i] = data[i] XOR key[i mod K]`, each key position
recomputed independently per index by a modulo operation. -/
def xorSpec (data key : List Nat) : List Nat :=
  (List.range data.length).map (fun i => data.getD i 0 ^^^ key.getD (i % key.length) 0)

/-- Unfolding of the loop when the key is non-empty and the starting index is
in range: it never goes out of bounds and produces the modular-index
formula, offset by the starting index. -/
theorem xorLoopGo_eq_spec (salt : List Nat) :
    ∀ (text : List Nat) (si : Nat), si < salt.length →
      xorLoopGo salt text si =
        some ((List.range text.length).map
          (fun i => text.getD i 0 ^^^ salt.getD ((si + i) % salt.length) 0)) := by
  intro text
  induction text with
  | nil => intro si hsi; simp [xorLoopGo]
  | cons t ts ih =>
    intro si hsi
    have hpos : 0 < salt.length := Nat.lt_of_le_of_lt (Nat.zero_le si) hsi
    have hget : salt.get? si = some (salt.getD si 0) := by
      simp [List.get?_eq_getElem?, List.getElem?_eq_getElem hsi, List.getD_eq_getElem?_getD]
    have hsi2 : (if si + 1 ≥ salt.length then 0 else si + 1) = (si + 1) % salt.length := by
      by_cases h : si + 1 ≥ salt.length
      · have he : si + 1 = salt.length := Nat.le_antisymm (Nat.succ_le_of_lt hsi) h
        simp [h, he]
      · have hlt : si + 1 < salt.length := Nat.lt_of_not_le h
        simp [h, Nat.mod_eq_of_lt hlt]
    have hsi2lt : (si + 1) % salt.length < salt.length := Nat.mod_lt _ hpos
    rw [xorLoopGo, hget, hsi2]
    dsimp only
    rw [ih ((si + 1) % salt.length) hsi2lt]
    simp only [List.length_cons, List.range_succ_eq_map, List.map_cons, List.map_map,
      Option.some.injEq, List.cons.injEq]
    constructor
    · simp [Nat.mod_eq_of_lt hsi]
    · apply List.map_congr_left
      intro i _
      simp only [Function.comp_apply, List.getD_cons_succ]
      rw [Nat.mod_add_mod]
      have hadd : si + 1 + i = si + (i + 1) := by omega
      rw [hadd]

/-- For a non-empty key, `transform` succeeds and equals the modular-index
reference definition. -/
theorem transform_eq_spec (text salt : List Nat) (hk : salt ≠ []) :
    transform text salt = some (xorSpec text salt) := by
  have hpos : 0 < salt.length := List.length_pos.mpr hk
  unfold transform xorSpec
  rw [xorLoopGo_eq_spec salt text 0 hpos]
  simp

/-- The length of the reference XOR equals the data length. -/
theorem xorSpec_length (data key : List Nat) : (xorSpec data key).length = data.length := by
  unfold xorSpec
  rw [List.length_map, List.length_range]

/-- Pointwise value of the reference XOR inside the data range. -/
theorem xorSpec_getD (data key : List Nat) (i : Nat) (hi : i < data.length) :
    (xorSpec data key).getD i 0 = data.getD i 0 ^^^ key.getD (i % key.length) 0 := by
  unfold xorSpec
  rw [List.getD_eq_getElem?_getD, List.getElem?_map, List.getElem?_range hi]
  rfl

/-- Reconstructing a list from its `getD` values over its index range. -/
theorem map_getD_range (l : List Nat) :
    (List.range l.length).map (fun i => l.getD i 0) = l := by
  induction l with
  | nil => rfl
  | cons a l ih =>
    simp only [List.length_cons, List.range_succ_eq_map, List.map_cons, List.map_map,
      List.getD_cons_zero, List.cons.injEq, true_and]
    conv_rhs => rw [← ih]
    apply List.map_congr_left
    intro i _
    simp

/-- Applying the reference XOR twice with the same key is the identity. -/
theorem xorSpec_xorSpec (data key : List Nat) :
    xorSpec (xorSpec data key) key = data := by
  conv_lhs => rw [xorSpec]
  rw [xorSpec_length]
  have h : ∀ i ∈ List.range data.length,
      (xorSpec data key).getD i 0 ^^^ key.getD (i % key.length) 0 = data.getD i 0 := by
    intro i hi
    rw [xorSpec_getD data key i (List.mem_range.mp hi), Nat.xor_assoc,
      Nat.xor_self, Nat.xor_zero]
  rw [List.map_congr_left h, map_getD_range]

/-- Claim C1: for every data sequence of length N at least 1 and every key of
length K at least 1, `transform` returns a sequence of exactly N bytes whose
byte at each position i equals `data[i] XOR key[i mod K]`. -/
theorem C1_transform_pointwise (data key : List Nat)
    (_hd : 1 ≤ data.length) (hk : 1 ≤ key.length) :
    ∃ out, transform data key = some out ∧ out.length = data.length ∧
      ∀ i, i < data.length →
        out.getD i 0 = data.getD i 0 ^^^ key.getD (i % key.length) 0 := by
  have hke : key ≠ [] := by
    intro h
    rw [h] at hk
    simp at hk
  exact ⟨xorSpec data key, transform_eq_spec data key hke, xorSpec_length data key,
    fun i hi => xorSpec_getD data key i hi⟩

/-- Claim C1 witness: the theorem applied at data = [1, 2, 3], key = [5, 6]. -/
theorem C1_transform_pointwise_witness :
    ∃ out, transform [1, 2, 3] [5, 6] = some out ∧
      out.length = ([1, 2, 3] : List Nat).length ∧
      ∀ i, i < ([1, 2, 3] : List Nat).length →
        out.getD i 0 = [1, 2, 3].getD i 0 ^^^ [5, 6].getD (i % ([5, 6] : List Nat).length) 0 :=
  C1_transform_pointwise [1, 2, 3] [5, 6] (by decide) (by decide)

/-- Claim C2: for every data sequence and every non-empty key, applying the
transform twice with the same key restores the input bit-for-bit. -/
theorem C2_involution (data key : List Nat) (hk : key ≠ []) :
    ∃ mid, transform data key = some mid ∧ transform mid key = some data := by
  refine ⟨xorSpec data key, transform_eq_spec data key hk, ?_⟩
  rw [transform_eq_spec (xorSpec data key) key hk, xorSpec_xorSpec]

/-- Claim C2 witness: round trip over a buffer containing every byte value
0x00 through 0xFF (`List.range 256`), with a key containing a null byte. -/
theorem C2_involution_witness :
    ∃ mid, transform (List.range 256) [55, 0, 255] = some mid ∧
      transform mid [55, 0, 255] = some (List.range 256) :=
  C2_involution (List.range 256) [55, 0, 255] (by decide)

/-- Claim C3 (code bug): the spec requires an InvalidKey failure when the key
is empty and the data is not, but `Tcl_xor_cmd` performs no such check: the
first loop iteration reads `salt[0]` past the end of the empty key array
(undefined behaviour, `CmdResult.undef` here) instead of failing with an
error. Evaluated at the failing input data = [0x41], key = []. -/
theorem C3_empty_key_undefined_behaviour :
    Tcl_xor_cmd [[], [65], []] = CmdResult.undef := by rfl

/-- Claim C4: for every data sequence and non-empty key, the output length
equals the data length exactly, including empty data. -/
theorem C4_length_preservation (data key : List Nat) (hk : key ≠ []) :
    ∃ out, transform data key = some out ∧ out.length = data.length :=
  ⟨xorSpec data key, transform_eq_spec data key hk, xorSpec_length data key⟩

/-- Claim C4 witness: the theorem applied at empty data and key = [9]. -/
theorem C4_length_preservation_witness :
    ∃ out, transform [] [9] = some out ∧ out.length = ([] : List Nat).length :=
  C4_length_preservation [] [9] (by decide)

/-- Claim C5: for every key, including the empty one, the command applied to
empty data succeeds with the empty result; the loop body never runs, so no
key byte is read and the result does not depend on the key. -/
theorem C5_empty_data (name key : List Nat) :
    Tcl_xor_cmd [name, [], key] = CmdResult.ok [] := rfl

/-- Claim C6: every invocation whose argument vector does not have exactly
three entries (command word plus data plus key) yields the fixed usage error
and no transform output. -/
theorem C6_arity_error (objv : List (List Nat)) (h : objv.length ≠ 3) :
    Tcl_xor_cmd objv = CmdResult.err "Invalid command count, use: xor <string> <salt>" := by
  cases objv with
  | nil => rfl
  | cons a l =>
    cases l with
    | nil => rfl
    | cons b l2 =>
      cases l2 with
      | nil => rfl
      | cons c l3 =>
        cases l3 with
        | nil => exact absurd rfl h
        | cons d l4 => rfl

/-- Claim C6 witness: the theorem applied at the empty argument vector. -/
theorem C6_arity_error_witness :
    Tcl_xor_cmd [] = CmdResult.err "Invalid command count, use: xor <string> <salt>" :=
  C6_arity_error [] (by decide)

/-- Claim C7: for data of 10 copies of byte 0x41 and key [0x58, 0x59], the
transform returns exactly the alternating sequence 0x19, 0x18 repeated. -/
theorem C7_key_cycling_example :
    transform (List.replicate 10 0x41) [0x58, 0x59] =
      some [0x19, 0x18, 0x19, 0x18, 0x19, 0x18, 0x19, 0x18, 0x19, 0x18] := by
  rfl

/-- Claim C8: the transform is deterministic; the result depends on nothing
but the two inputs. -/
theorem C8_deterministic (d1 k1 d2 k2 : List Nat) (hd : d1 = d2) (hk : k1 = k2) :
    transform d1 k1 = transform d2 k2 := by
  rw [hd, hk]

/-- Claim C8 witness: the theorem applied at two syntactically separate but
equal invocations. -/
theorem C8_deterministic_witness : transform [1, 2] [3] = transform [1, 2] [3] :=
  C8_deterministic [1, 2] [3] [1, 2] [3] rfl rfl

/-- Claim C9: the running-counter key-cycling loop of the source computes,
for every data sequence and non-empty key, the same result as the reference
definition that recomputes `i mod K` independently at each position. -/
theorem C9_counter_refines_mod (data key : List Nat) (hk : key ≠ []) :
    transform data key = some (xorSpec data key) :=
  transform_eq_spec data key hk

/-- Claim C9 witness: the theorem applied at data = [1, 2, 3, 4, 5],
key = [7, 9]. -/
theorem C9_counter_refines_mod_witness :
    transform [1, 2, 3, 4, 5] [7, 9] = some (xorSpec [1, 2, 3, 4, 5] [7, 9]) :=
  C9_counter_refines_mod [1, 2, 3, 4, 5] [7, 9] (by decide)

/-- Claim C10: for non-empty byte sequences of equal length the transform is
symmetric in its two arguments. -/
theorem C10_symmetry (a b : List Nat) (ha : a ≠ []) (hb : b ≠ [])
    (hlen : a.length = b.length) :
    transform a b = transform b a := by
  rw [transform_eq_spec a b hb, transform_eq_spec b a ha]
  congr 1
  unfold xorSpec
  rw [hlen]
  apply List.map_congr_left
  intro i hi
  rw [Nat.mod_eq_of_lt (List.mem_range.mp hi), Nat.xor_comm]

/-- Claim C10 witness: the theorem applied at a = [1, 2], b = [3, 4]. -/
theorem C10_symmetry_witness : transform [1, 2] [3, 4] = transform [3, 4] [1, 2] :=
  C10_symmetry [1, 2] [3, 4] (by decide) (by decide) (by decide)

end TclPerformance
